import Mathlib

/-!
Verification of the LRC lyrics parser/loader (`src/assets/lrc-loader.js`).

The JS code is shallowly embedded: strings are handled as `List Char`
(ASCII-faithful for the whitespace and digit classes the code uses),
JS numbers that only ever hold small non-negative integers become `Nat`,
and the float computation `Math.round(minutes*60 + seconds + ms/1000)`
(exact for minutes, seconds ≤ 99 and ms ≤ 999, the only values the regex
can produce) becomes the exact integer form `(.. + 500) / 1000`.
The stateful loader (`loadLRC` / `getLyrics`) is embedded with explicit
cache passing; the `fetch` collaborator and the `lyricsData` fallback
table are oracles passed as functions, and the number of fetch /
fallback-table consultations is returned so that "without invoking
fetch" is expressible.
-/

namespace LRC

/-- A parsed lyric entry: `{time, text}` in the JS code. -/
structure LyricLine where
  time : Nat
  text : String
deriving DecidableEq, Repr

/-- Numeric value of a digit character (`parseInt` on single digits). -/
def digitVal (c : Char) : Nat := c.toNat - '0'.toNat

/-- `parseInt(s, 10)` on an all-digit string. -/
def digitsToNat (ds : List Char) : Nat := ds.foldl (fun n c => 10 * n + digitVal c) 0

/-- The fractional separator `[.:]` of the timestamp regex. -/
def isSep (c : Char) : Bool := c = '.' || c = ':'

/-- A raw timestamp match of `\[(\d2):(\d2)(?:[.:](\d2,3))?\]`:
two-digit minutes, two-digit seconds, optional 2-3 digit fraction. -/
structure RawStamp where
  minutes : Nat
  seconds : Nat
  frac : Option (List Char)
deriving DecidableEq, Repr

/-- Greedy attempt to match `[.:]` + three digits + `]` (the regex tries
three fractional digits first). Returns the digits and the rest. -/
def tryFrac3 : List Char → Option (List Char × List Char)
  | s :: a :: b :: c :: ']' :: r =>
    if isSep s && a.isDigit && b.isDigit && c.isDigit then some ([a, b, c], r) else none
  | _ => none

/-- Backtracking attempt: `[.:]` + two digits + `]`. -/
def tryFrac2 : List Char → Option (List Char × List Char)
  | s :: a :: b :: ']' :: r =>
    if isSep s && a.isDigit && b.isDigit then some ([a, b], r) else none
  | _ => none

/-- After `[MM:SS`, the regex greedily tries a 3-digit fraction, then a
2-digit fraction, then no fraction at all, each followed by `]`. -/
def fracAndClose (rest : List Char) : Option (Option (List Char) × List Char) :=
  match tryFrac3 rest with
  | some (fr, r) => some (some fr, r)
  | none =>
    match tryFrac2 rest with
    | some (fr, r) => some (some fr, r)
    | none =>
      match rest with
      | ']' :: r => some (none, r)
      | _ => none

/-- Try to match the timestamp regex at the head of the character list,
returning the captured pieces and the unconsumed rest. -/
def matchTimestampAt : List Char → Option (RawStamp × List Char)
  | '[' :: d1 :: d2 :: ':' :: d3 :: d4 :: rest =>
    if d1.isDigit && d2.isDigit && d3.isDigit && d4.isDigit then
      match fracAndClose rest with
      | some (fr, r) =>
        some (⟨10 * digitVal d1 + digitVal d2, 10 * digitVal d3 + digitVal d4, fr⟩, r)
      | none => none
    else none
  | _ => none

/-- Left-to-right scan for all non-overlapping regex matches (the
`while (regex.exec(line))` loop); also accumulates the unmatched
characters, which is exactly `line.replace(timeRegex, "")`.
Fuel is the remaining length: every step consumes at least one char. -/
def scanLineAux : Nat → List Char → List RawStamp × List Char
  | _, [] => ([], [])
  | 0, cs => ([], cs)
  | fuel + 1, c :: cs =>
    match matchTimestampAt (c :: cs) with
    | some (st, rest) =>
      let (ts, txt) := scanLineAux fuel rest
      (st :: ts, txt)
    | none =>
      let (ts, txt) := scanLineAux fuel cs
      (ts, c :: txt)

/-- Scan a whole line for timestamp matches and its residual text. -/
def scanLine (l : List Char) : List RawStamp × List Char := scanLineAux l.length l

/-- `trim()` on a character list (ASCII whitespace). -/
def trimChars (l : List Char) : List Char :=
  ((l.dropWhile Char.isWhitespace).reverse.dropWhile Char.isWhitespace).reverse

/-- Does a character-list pattern begin the given list? -/
def beginsWith : List Char → List Char → Bool
  | [], _ => true
  | _ :: _, [] => false
  | p :: ps, c :: cs => p == c && beginsWith ps cs

/-- The recognized metadata tag names of
`/^\[(ar|ti|al|au|length|by|offset|re|ve|id|la):/i`. -/
def metaTags : List (List Char) :=
  [['a','r'], ['t','i'], ['a','l'], ['a','u'], ['l','e','n','g','t','h'], ['b','y'],
   ['o','f','f','s','e','t'], ['r','e'], ['v','e'], ['i','d'], ['l','a']]

/-- Case-insensitive test whether the line starts with `[tag:` for one of
the metadata tags (the `continue` guard of the parser loop). -/
def isMetaLine (l : List Char) : Bool :=
  metaTags.any fun t => beginsWith ('[' :: t ++ [':']) (l.map Char.toLower)

/-- `match[3].padEnd(3, "0").slice(0, 3)`: right-pad the fractional
digits with zeros to three characters, keep the first three. -/
def padTrunc3 (ds : List Char) : List Char := (ds ++ ['0', '0', '0']).take 3

/-- Milliseconds of an optional fractional capture (`match[3] ? ... : 0`). -/
def msOf : Option (List Char) → Nat
  | none => 0
  | some ds => digitsToNat (padTrunc3 ds)

/-- `Math.round(minutes*60 + seconds + milliseconds/1000)` in exact
integer arithmetic: round half up of `T/1000` is `(T + 500) / 1000`. -/
def stampTime (st : RawStamp) : Nat :=
  (st.minutes * 60000 + st.seconds * 1000 + msOf st.frac + 500) / 1000

/-- The timestamps found on a line. -/
def lineStamps (l : List Char) : List RawStamp := (scanLine l).1

/-- `line.replace(timeRegex, "").trim()`. -/
def lineTextChars (l : List Char) : List Char := trimChars (scanLine l).2

/-- The text attached to every entry of the line: the residual text, or
the placeholder `"•••"` when it is empty. -/
def lineText (l : List Char) : String :=
  if lineTextChars l = [] then "•••" else String.mk (lineTextChars l)

/-- Entries emitted for one line of the input: nothing for metadata
lines and blank lines, otherwise one entry per timestamp, all sharing
the line's text. -/
def lineEntries (l : List Char) : List LyricLine :=
  if isMetaLine l then []
  else if trimChars l = [] then []
  else (lineStamps l).map fun st => ⟨stampTime st, lineText l⟩

/-- `lrcContent.split("\n")`. -/
def splitOnNL : List Char → List (List Char)
  | [] => [[]]
  | '\n' :: cs => [] :: splitOnNL cs
  | c :: cs =>
    match splitOnNL cs with
    | [] => [[c]]
    | l :: ls => (c :: l) :: ls

/-- All entries accumulated over the lines, in order of appearance
(the `lyrics` array before sorting). -/
def rawEntries (s : List Char) : List LyricLine := (splitOnNL s).flatMap lineEntries

/-- Stable insertion of an entry into a list, before the first entry of
greater-or-equal time: equal-time entries keep their relative order. -/
def insertSorted (x : LyricLine) : List LyricLine → List LyricLine
  | [] => [x]
  | y :: ys => if x.time ≤ y.time then x :: y :: ys else y :: insertSorted x ys

/-- Stable sort ascending by time: the embedding of
`lyrics.sort((a, b) => a.time - b.time)` (ECMAScript sort is stable). -/
def sortByTime : List LyricLine → List LyricLine
  | [] => []
  | x :: xs => insertSorted x (sortByTime xs)

/-- The sorted entry list, before the synthetic leading note. -/
def sortedEntries (s : String) : List LyricLine := sortByTime (rawEntries s.data)

/-- Does the parser prepend the synthetic `{time: 0, text: "♪"}`?
Exactly when the sorted list is non-empty and its head's time exceeds 2. -/
def needsNote (s : String) : Bool :=
  match sortedEntries s with
  | [] => false
  | e :: _ => 2 < e.time

/-- `parseLRC`: split, per-line extraction, stable sort by time, and the
conditional synthetic leading music note. -/
def parseLRC (s : String) : List LyricLine :=
  match sortedEntries s with
  | [] => []
  | e :: rest => if 2 < e.time then ⟨0, "♪"⟩ :: e :: rest else e :: rest

/-! ## The loader (`loadLRC` / `getLyrics`) with explicit state -/

/-- Outcome of one call to the `fetch` collaborator (plus the following
`response.text()`): a successful response with its text, a response
with `!response.ok`, or a raised error (network/transport fault). -/
inductive FetchOutcome where
  | success (text : String)
  | notFound
  | threw
deriving DecidableEq, Repr

/-- The loader's cache, `this.cache`: keys to parsed sequences. -/
abbrev Cache := List (String × List LyricLine)

/-- Result of `loadLRC`: the returned value, the cache afterwards, and
how many times the fetch collaborator was invoked. -/
structure LoadResult where
  lyrics : Option (List LyricLine)
  cache : Cache
  fetches : Nat
deriving DecidableEq, Repr

/-- Result of `getLyrics`: additionally counts consultations of the
fallback table. -/
structure GetResult where
  lyrics : Option (List LyricLine)
  cache : Cache
  fetches : Nat
  fallbackLookups : Nat
deriving DecidableEq, Repr

/-- The resource path `${this.basePath}${lyricsKey}.lrc`. -/
def lrcURL (basePath key : String) : String := basePath ++ key ++ ".lrc"

/-- `loadLRC`: cached value if present, otherwise fetch, parse, and
cache the parse when it is non-empty; non-success and raised errors
both give `null` with the cache untouched. -/
def loadLRC (f : String → FetchOutcome) (basePath : String) (cache : Cache)
    (key : String) : LoadResult :=
  match cache.lookup key with
  | some v => ⟨some v, cache, 0⟩
  | none =>
    match f (lrcURL basePath key) with
    | .notFound => ⟨none, cache, 1⟩
    | .threw => ⟨none, cache, 1⟩
    | .success text =>
      let lyrics := parseLRC text
      if lyrics.length > 0 then ⟨some lyrics, (key, lyrics) :: cache, 1⟩
      else ⟨none, cache, 1⟩

/-- `getLyrics`: `null`/empty key gives `null` immediately; otherwise
the LRC path is tried, and when it yields no non-empty sequence the
fallback table `fb` (the external `lyricsData`, `none` when the table
is undefined or lacks the key's `lines` field) is consulted and its
value returned as-is. The key is `Option String`; `none` models the
JavaScript `null` argument. -/
def getLyrics (f : String → FetchOutcome) (fb : String → Option (List LyricLine))
    (basePath : String) (cache : Cache) : Option String → GetResult
  | none => ⟨none, cache, 0, 0⟩
  | some k =>
    if k = "" then ⟨none, cache, 0, 0⟩
    else
      match loadLRC f basePath cache k with
      | ⟨some l, c, n⟩ =>
        if l.length > 0 then ⟨some l, c, n, 0⟩ else ⟨fb k, c, n, 1⟩
      | ⟨none, c, n⟩ => ⟨fb k, c, n, 1⟩

/-! ## Helper lemmas about the stable sort -/

theorem mem_insertSorted {x z : LyricLine} {l : List LyricLine}
    (h : z ∈ insertSorted x l) : z = x ∨ z ∈ l := by
  induction l with
  | nil => simpa [insertSorted] using h
  | cons y ys ih =>
    rw [insertSorted] at h
    by_cases hxy : x.time ≤ y.time
    · rw [if_pos hxy] at h
      rcases List.mem_cons.mp h with h' | h'
      · exact Or.inl h'
      · exact Or.inr h'
    · rw [if_neg hxy] at h
      rcases List.mem_cons.mp h with h' | h'
      · exact Or.inr (by simp [h'])
      · rcases ih h' with h'' | h''
        · exact Or.inl h''
        · exact Or.inr (List.mem_cons_of_mem _ h'')

theorem pairwise_insertSorted (x : LyricLine) {l : List LyricLine}
    (h : l.Pairwise fun a b => a.time ≤ b.time) :
    (insertSorted x l).Pairwise fun a b => a.time ≤ b.time := by
  induction l with
  | nil => simp [insertSorted]
  | cons y ys ih =>
    rw [List.pairwise_cons] at h
    obtain ⟨hy, hys⟩ := h
    rw [insertSorted]
    by_cases hxy : x.time ≤ y.time
    · rw [if_pos hxy]
      refine List.Pairwise.cons ?_ (List.Pairwise.cons hy hys)
      intro z hz
      rcases List.mem_cons.mp hz with rfl | hz'
      · exact hxy
      · exact le_trans hxy (hy z hz')
    · rw [if_neg hxy]
      refine List.Pairwise.cons ?_ (ih hys)
      intro z hz
      rcases mem_insertSorted hz with rfl | hz'
      · exact Nat.le_of_not_le hxy
      · exact hy z hz'

theorem pairwise_sortByTime (l : List LyricLine) :
    (sortByTime l).Pairwise fun a b => a.time ≤ b.time := by
  induction l with
  | nil => simp [sortByTime]
  | cons x xs ih => exact pairwise_insertSorted x ih

theorem filter_insertSorted (t : Nat) (x : LyricLine) (l : List LyricLine) :
    (insertSorted x l).filter (fun e => e.time == t) =
      if x.time = t then x :: l.filter (fun e => e.time == t)
      else l.filter (fun e => e.time == t) := by
  induction l with
  | nil => by_cases h : x.time = t <;> simp [insertSorted, h]
  | cons y ys ih =>
    rw [insertSorted]
    by_cases hxy : x.time ≤ y.time
    · rw [if_pos hxy]
      by_cases h : x.time = t <;> simp [List.filter_cons, h]
    · rw [if_neg hxy]
      by_cases h : x.time = t
      · have hy : ¬(y.time = t) := by omega
        simp [List.filter_cons, ih, h, hy]
      · by_cases hy : y.time = t <;> simp [List.filter_cons, ih, h, hy]

theorem filter_sortByTime (t : Nat) (l : List LyricLine) :
    (sortByTime l).filter (fun e => e.time == t) = l.filter (fun e => e.time == t) := by
  induction l with
  | nil => rfl
  | cons x xs ih =>
    rw [sortByTime, filter_insertSorted]
    by_cases h : x.time = t <;> simp [List.filter_cons, ih, h]

theorem parseLRC_eq_if (s : String) :
    parseLRC s =
      if needsNote s then (⟨0, "♪"⟩ : LyricLine) :: sortedEntries s else sortedEntries s := by
  rw [parseLRC, needsNote]
  cases h : sortedEntries s with
  | nil => simp
  | cons e rest => by_cases he : 2 < e.time <;> simp [he]

/-! ## C1 -/

/-- C1: for every input string the sequence returned by `parseLRC` is
sorted non-decreasing by `time`, and it is stable: for each time `t`,
the entries of time `t` in the output are exactly the entries of time
`t` among the accumulated per-line entries, in their original order of
appearance (with the synthetic note, when present, in front at `t = 0`). -/
theorem parseLRC_sorted_stable (s : String) (t : Nat) :
    ((parseLRC s).Pairwise fun a b => a.time ≤ b.time) ∧
    (parseLRC s).filter (fun e => e.time == t) =
      (if needsNote s = true ∧ t = 0 then [(⟨0, "♪"⟩ : LyricLine)] else []) ++
        (rawEntries s.data).filter (fun e => e.time == t) := by
  rw [parseLRC_eq_if]
  by_cases hn : needsNote s = true
  · rw [if_pos hn]
    constructor
    · refine List.Pairwise.cons ?_ (pairwise_sortByTime _)
      intro z _
      exact Nat.zero_le _
    · by_cases ht : t = 0
      · subst ht
        simp [List.filter_cons, hn, sortedEntries, filter_sortByTime]
      · have ht' : ¬(0 = t) := fun hh => ht hh.symm
        simp [List.filter_cons, hn, ht, ht', sortedEntries, filter_sortByTime]
  · rw [if_neg hn]
    refine ⟨pairwise_sortByTime _, ?_⟩
    simp [hn, sortedEntries, filter_sortByTime]

/-! ## C2 -/

theorem floor_half_up (T : Nat) : ⌊(T : ℚ) / 1000 + 1 / 2⌋₊ = (T + 500) / 1000 := by
  have h : (T : ℚ) / 1000 + 1 / 2 = ((T + 500 : ℕ) : ℚ) / ((1000 : ℕ) : ℚ) := by
    push_cast
    ring
  rw [h, Nat.floor_div_nat, Nat.floor_natCast]

/-- C2 counterexample: `parseLRC "[00:05.50]Hello"` does not yield the
single entry `{time: 6, text: "Hello"}` — it has two entries, because
the synthetic leading note is prepended (6 > 2). -/
theorem parseLRC_half_second_counterexample :
    parseLRC "[00:05.50]Hello" ≠ [⟨6, "Hello"⟩] := by decide

/-- C2 amended: every matched timestamp's time is
`minutes*60 + seconds + ms/1000` rounded to the nearest whole second,
halves up, with `ms` the fraction right-padded with zeros to 3 digits
then truncated (so a 2-digit fraction `ff` gives `ff*10` ms); but
`parseLRC "[00:05.50]Hello"` yields the synthetic note followed by
`{time: 6, text: "Hello"}`, two entries. -/
theorem stampTime_formula_amended :
    (∀ st : RawStamp,
      stampTime st =
        ⌊((st.minutes : ℚ) * 60 + (st.seconds : ℚ) + (msOf st.frac : ℚ) / 1000) + 1 / 2⌋₊) ∧
    (∀ ds : List Char, ds.length = 2 → msOf (some ds) = 10 * digitsToNat ds) ∧
    parseLRC "[00:05.50]Hello" = [⟨0, "♪"⟩, ⟨6, "Hello"⟩] := by
  refine ⟨?_, ?_, by decide⟩
  · intro st
    have h : ((st.minutes : ℚ) * 60 + (st.seconds : ℚ) + (msOf st.frac : ℚ) / 1000) + 1 / 2 =
        ((st.minutes * 60000 + st.seconds * 1000 + msOf st.frac : ℕ) : ℚ) / 1000 + 1 / 2 := by
      push_cast
      ring
    rw [stampTime, h, floor_half_up]
  · intro ds h
    match ds, h with
    | [a, b], _ =>
      have h0 : digitVal '0' = 0 := by decide
      simp only [msOf, padTrunc3, digitsToNat, List.foldl, List.cons_append, List.nil_append,
        List.take, h0]
      ring

/-- C2 witness: the two-digit-fraction rule applied at `"50"`. -/
theorem stampTime_formula_amended_witness :
    (['5', '0'] : List Char).length = 2 ∧ msOf (some ['5', '0']) = 10 * digitsToNat ['5', '0'] :=
  ⟨rfl, stampTime_formula_amended.2.1 ['5', '0'] rfl⟩

/-! ## C3 -/

/-- C3 counterexample: the line `"[00:05.5]Hello"` (single-digit
fraction) yields no entries at all — the token is not matched. -/
theorem singleDigitFrac_counterexample : parseLRC "[00:05.5]Hello" = [] := by decide

/-- C3 amended: a timestamp token with a single-digit fraction is not
recognized (the regex requires 2 or 3 fractional digits): the scan of
`"[00:05.5]Hello"` finds no timestamp and `parseLRC` returns the empty
sequence. -/
theorem singleDigitFrac_amended :
    lineStamps ("[00:05.5]Hello".data) = [] ∧ parseLRC "[00:05.5]Hello" = [] := by
  exact ⟨by decide, by decide⟩

/-! ## C4 -/

/-- C4: the synthetic entry `{time: 0, text: "♪"}` is prepended exactly
when the sorted sequence is non-empty with first time strictly greater
than 2; `"[ar:Someone]\n[00:05]Hi"` gives the note plus `{5, "Hi"}`
(the metadata line producing nothing), an input whose earliest
timestamp is `[00:01]` gets no note, and an empty sequence gets none. -/
theorem leadingNote_characterization :
    (∀ (s : String) (e : LyricLine) (rest : List LyricLine),
      sortedEntries s = e :: rest → 2 < e.time →
        parseLRC s = (⟨0, "♪"⟩ : LyricLine) :: e :: rest) ∧
    (∀ (s : String) (e : LyricLine) (rest : List LyricLine),
      sortedEntries s = e :: rest → ¬2 < e.time → parseLRC s = e :: rest) ∧
    (∀ s : String, sortedEntries s = [] → parseLRC s = []) ∧
    parseLRC "[ar:Someone]\n[00:05]Hi" = [⟨0, "♪"⟩, ⟨5, "Hi"⟩] ∧
    parseLRC "[00:01]Hi" = [⟨1, "Hi"⟩] ∧
    parseLRC "" = [] := by
  refine ⟨?_, ?_, ?_, by decide, by decide, by decide⟩
  · intro s e rest h he
    rw [parseLRC, h]
    simp [he]
  · intro s e rest h he
    rw [parseLRC, h]
    simp [he]
  · intro s h
    rw [parseLRC, h]

/-- C4 witness: the characterization applied to the metadata example. -/
theorem leadingNote_characterization_witness :
    sortedEntries "[ar:Someone]\n[00:05]Hi" = [⟨5, "Hi"⟩] ∧
    parseLRC "[ar:Someone]\n[00:05]Hi" = [⟨0, "♪"⟩, ⟨5, "Hi"⟩] :=
  ⟨by decide, leadingNote_characterization.1 _ ⟨5, "Hi"⟩ [] (by decide) (by decide)⟩

/-! ## C6 -/

/-- C6: a non-metadata, non-blank line emits one entry per timestamp
token, all sharing the line's text; `"[00:01][00:03]Same"` yields
exactly `{1, "Same"}` and `{3, "Same"}`. -/
theorem multiTimestamp_line :
    parseLRC "[00:01][00:03]Same" = [⟨1, "Same"⟩, ⟨3, "Same"⟩] ∧
    (∀ l : List Char, isMetaLine l = false → trimChars l ≠ [] →
      (lineEntries l).length = (lineStamps l).length ∧
        ∀ e ∈ lineEntries l, e.text = lineText l) := by
  refine ⟨by decide, ?_⟩
  intro l hm ht
  rw [lineEntries, hm, if_neg (by simp), if_neg ht]
  constructor
  · exact List.length_map _ _
  · intro e he
    rcases List.mem_map.mp he with ⟨st, _, rfl⟩
    rfl

/-- C6 witness: the per-line structure evaluated on the example line. -/
theorem multiTimestamp_line_witness :
    isMetaLine ("[00:01][00:03]Same".data) = false ∧
    trimChars ("[00:01][00:03]Same".data) ≠ [] ∧
    (lineEntries ("[00:01][00:03]Same".data)).length =
      (lineStamps ("[00:01][00:03]Same".data)).length :=
  ⟨by decide, by decide, (multiTimestamp_line.2 _ (by decide) (by decide)).1⟩

/-! ## C7 -/

/-- C7: whenever a line's text is empty after removing the timestamp
tokens and trimming, its emitted entries carry the placeholder `"•••"`;
the line `"[00:10]"` yields the single entry `{time: 10, text: "•••"}`. -/
theorem emptyText_placeholder :
    (∀ l : List Char, lineTextChars l = [] → ∀ e ∈ lineEntries l, e.text = "•••") ∧
    lineEntries ("[00:10]".data) = [⟨10, "•••"⟩] := by
  refine ⟨?_, by decide⟩
  intro l h e he
  rw [lineEntries] at he
  split at he
  · simp at he
  · split at he
    · simp at he
    · rcases List.mem_map.mp he with ⟨st, _, rfl⟩
      simp [lineText, h]

/-- C7 witness: the placeholder rule applied to the line `"[00:10]"`. -/
theorem emptyText_placeholder_witness :
    lineTextChars ("[00:10]".data) = [] ∧
    (⟨10, "•••"⟩ : LyricLine).text = "•••" :=
  ⟨by decide,
    emptyText_placeholder.1 ("[00:10]".data) (by decide) ⟨10, "•••"⟩ (by decide)⟩

/-! ## C5 -/

/-- C5 counterexample: the key `""` has never been stored (empty
cache), yet its first `getLyrics` call does not invoke the fetch
collaborator — the claim's "the first call for any key never so stored
does invoke fetch" fails at the empty key. -/
theorem cache_counterexample :
    (([] : Cache).lookup "" = none) ∧
    (getLyrics (fun _ => FetchOutcome.success "[00:05]Hi") (fun _ => none) "b" []
      (some "")).fetches = 0 :=
  ⟨rfl, rfl⟩

/-- C5 amended: for every non-empty key, `getLyrics` returns the cached
sequence without invoking fetch exactly when a prior call stored one
(cached keys return their stored non-empty sequence with zero fetches,
uncached keys always fetch once), and after a first call that fetched
and parsed a non-empty sequence, a second call returns the same
sequence with no new fetch. -/
theorem cache_amended :
    (∀ (f : String → FetchOutcome) (fb : String → Option (List LyricLine))
        (bp : String) (cache : Cache) (k : String) (seq : List LyricLine),
      k ≠ "" → cache.lookup k = some seq → seq ≠ [] →
        getLyrics f fb bp cache (some k) = ⟨some seq, cache, 0, 0⟩) ∧
    (∀ (f : String → FetchOutcome) (fb : String → Option (List LyricLine))
        (bp : String) (cache : Cache) (k : String),
      k ≠ "" → cache.lookup k = none →
        (getLyrics f fb bp cache (some k)).fetches = 1) ∧
    (∀ (f : String → FetchOutcome) (fb : String → Option (List LyricLine))
        (bp : String) (cache : Cache) (k t : String),
      k ≠ "" → cache.lookup k = none →
        f (lrcURL bp k) = FetchOutcome.success t → parseLRC t ≠ [] →
        getLyrics f fb bp cache (some k) =
          ⟨some (parseLRC t), (k, parseLRC t) :: cache, 1, 0⟩ ∧
        getLyrics f fb bp ((k, parseLRC t) :: cache) (some k) =
          ⟨some (parseLRC t), (k, parseLRC t) :: cache, 0, 0⟩) := by
  refine ⟨?_, ?_, ?_⟩
  · intro f fb bp cache k seq hk hlook hne
    simp [getLyrics, loadLRC, hk, hlook, List.length_pos.mpr hne]
  · intro f fb bp cache k hk hlook
    simp only [getLyrics, if_neg hk, loadLRC, hlook]
    cases f (lrcURL bp k) with
    | success t => by_cases hl : (parseLRC t).length > 0 <;> simp [hl]
    | notFound => rfl
    | threw => rfl
  · intro f fb bp cache k t hk hlook hf hp
    constructor
    · simp [getLyrics, loadLRC, hk, hlook, hf, List.length_pos.mpr hp]
    · simp [getLyrics, loadLRC, hk, List.lookup, List.length_pos.mpr hp]

/-- C5 witness: a concrete successful first call stores the parse and
is returned by the amended theorem's first-call equation. -/
theorem cache_amended_witness :
    ("k" : String) ≠ "" ∧ (([] : Cache).lookup "k" = none) ∧ parseLRC "[00:05]Hi" ≠ [] ∧
    getLyrics (fun _ => FetchOutcome.success "[00:05]Hi") (fun _ => none) "b" [] (some "k") =
      ⟨some (parseLRC "[00:05]Hi"), [("k", parseLRC "[00:05]Hi")], 1, 0⟩ :=
  ⟨by decide, rfl, by decide,
    (cache_amended.2.2 (fun _ => FetchOutcome.success "[00:05]Hi") (fun _ => none) "b" []
      "k" "[00:05]Hi" (by decide) rfl rfl (by decide)).1⟩

/-! ## C8 -/

/-- C8: whenever the primary path yields no non-empty sequence (fetch
non-success, fetch raised, or the fetched text parses to the empty
sequence), `getLyrics` propagates no error: it consults the fallback
table once and returns its `lines` value as-is (`none` when absent),
with the cache untouched. -/
theorem fallback_on_failure (f : String → FetchOutcome)
    (fb : String → Option (List LyricLine)) (bp : String) (cache : Cache) (k : String)
    (hk : k ≠ "") (hlook : cache.lookup k = none)
    (h : f (lrcURL bp k) = FetchOutcome.notFound ∨ f (lrcURL bp k) = FetchOutcome.threw ∨
      ∃ t, f (lrcURL bp k) = FetchOutcome.success t ∧ parseLRC t = []) :
    getLyrics f fb bp cache (some k) = ⟨fb k, cache, 1, 1⟩ := by
  rcases h with hf | hf | ⟨t, hf, hp⟩
  · simp [getLyrics, loadLRC, hk, hlook, hf]
  · simp [getLyrics, loadLRC, hk, hlook, hf]
  · simp [getLyrics, loadLRC, hk, hlook, hf, hp]

/-- C8 witness: a raising fetch degrades to the fallback table's value. -/
theorem fallback_on_failure_witness :
    ("k" : String) ≠ "" ∧ (([] : Cache).lookup "k" = none) ∧
    getLyrics (fun _ => FetchOutcome.threw) (fun _ => some [⟨1, "x"⟩]) "b" [] (some "k") =
      ⟨some [⟨1, "x"⟩], [], 1, 1⟩ :=
  ⟨by decide, rfl,
    fallback_on_failure (fun _ => FetchOutcome.threw) (fun _ => some [⟨1, "x"⟩]) "b" [] "k"
      (by decide) rfl (Or.inr (Or.inl rfl))⟩

/-! ## C9 -/

/-- C9: `getLyrics` on the `null` key and on the empty key returns
`null` immediately: no fetch, no fallback-table consultation, and the
cache unchanged. -/
theorem nullKey_returns_none (f : String → FetchOutcome)
    (fb : String → Option (List LyricLine)) (bp : String) (cache : Cache) :
    getLyrics f fb bp cache none = ⟨none, cache, 0, 0⟩ ∧
    getLyrics f fb bp cache (some "") = ⟨none, cache, 0, 0⟩ :=
  ⟨rfl, by simp [getLyrics]⟩

/-! ## C10 -/

/-- C10: on every `getLyrics` call the cache is either left entirely
unchanged, or — only when the key is a fresh non-empty one whose fetch
succeeded with text parsing to a non-empty sequence — extended by
exactly that parsed sequence under the argument key, which is also the
returned value (so fallback results are never cached). -/
theorem cache_frame (f : String → FetchOutcome) (fb : String → Option (List LyricLine))
    (bp : String) (cache : Cache) (key : Option String) :
    (getLyrics f fb bp cache key).cache = cache ∨
    ∃ k t, key = some k ∧ k ≠ "" ∧ cache.lookup k = none ∧
      f (lrcURL bp k) = FetchOutcome.success t ∧ parseLRC t ≠ [] ∧
      (getLyrics f fb bp cache key).cache = (k, parseLRC t) :: cache ∧
      (getLyrics f fb bp cache key).lyrics = some (parseLRC t) := by
  cases key with
  | none => exact Or.inl rfl
  | some k =>
    by_cases hk : k = ""
    · exact Or.inl (by simp [getLyrics, hk])
    · cases hlook : cache.lookup k with
      | some v =>
        left
        simp only [getLyrics, if_neg hk, loadLRC, hlook]
        split <;> rfl
      | none =>
        cases hf : f (lrcURL bp k) with
        | notFound => exact Or.inl (by simp [getLyrics, loadLRC, hk, hlook, hf])
        | threw => exact Or.inl (by simp [getLyrics, loadLRC, hk, hlook, hf])
        | success t =>
          by_cases hp : parseLRC t = []
          · exact Or.inl (by simp [getLyrics, loadLRC, hk, hlook, hf, hp])
          · right
            refine ⟨k, t, rfl, hk, hlook, hf, hp, ?_, ?_⟩ <;>
              simp [getLyrics, loadLRC, hk, hlook, hf, List.length_pos.mpr hp]

end LRC
